import Mathlib

/-!
Shallow embedding of the near-wagers contract
(src/contract/assembly/index.ts together with the model module defining the
Wager record). The persistent collections (PersistentMap, PersistentSet,
PersistentUnorderedMap and the per-symbol queue) are modelled as association
lists and lists, per the typed-repository reading of sections 4 and 9 of the
specification. u128 and u64 arithmetic wraps modulo 2^128 and 2^64. A failed
assert aborts the whole call; the host applies no state change on abort, so
aborted calls are modelled with Except and a rollback in the step function.
-/

namespace NearWagers

def U128MOD : Nat := 2 ^ 128

def U64MOD : Nat := 2 ^ 64

def TOTAL_SUPPLY : Nat := U128MOD - 1

def MAX_SYMBOL_LENGTH : Nat := 128

def add128 (a b : Nat) : Nat := (a + b) % U128MOD

def sub128 (a b : Nat) : Nat := if b ≤ a then a - b else a + U128MOD - b

/-- The Wager record of the model module; at_ is the expiry time (named at in
the source, which is a keyword here). -/
structure Wager where
  id : Nat
  symbol : String
  value : Nat
  at_ : Nat
  allowCancelAt : Nat
  bet : Nat
  over : String
  under : String
deriving DecidableEq

/-- Queue entry: wager id together with its expiry time. -/
structure SortWagerByTime where
  wagerId : Nat
  at_ : Nat
deriving DecidableEq

/-- Error kinds: the assert messages of index.ts, plus KeyNotFound for a
getSome call on a collection key that is absent. -/
inductive Err where
  | AlreadyMinted
  | InvalidAccount
  | InvalidAmount
  | InvalidTime
  | InvalidWager
  | InvalidSymbol
  | CannotAccept
  | CannotCancel
  | InsufficientBalance
  | KeyNotFound
deriving DecidableEq

def alGet {K V : Type} [DecidableEq K] : List (K × V) → K → Option V
  | [], _ => none
  | p :: rest, k => if p.1 = k then some p.2 else alGet rest k

def alSet {K V : Type} [DecidableEq K] : List (K × V) → K → V → List (K × V)
  | [], k, v => [(k, v)]
  | p :: rest, k, v => if p.1 = k then (k, v) :: rest else p :: alSet rest k v

def alContains {K V : Type} [DecidableEq K] (m : List (K × V)) (k : K) : Bool :=
  (alGet m k).isSome

def alDelete {K V : Type} [DecidableEq K] : List (K × V) → K → List (K × V)
  | [], _ => []
  | p :: rest, k => if p.1 = k then alDelete rest k else p :: alDelete rest k

/-- PersistentSet.add: adds the element when absent. -/
def setAdd (l : List Nat) (x : Nat) : List Nat := if x ∈ l then l else l ++ [x]

/-- Modelled from the spec: the repository file src/contract/assembly/MaxHeap.ts
is not under src. Section 4.4 describes a priority queue over
(wagerId, expiryTime) ordered so the smallest expiry is always on top (the
SortWagerByTime comparison operator inverts less-than for this purpose), with
implementation-defined but consistent order among equal expiries. We realise
the queue as a list sorted by expiry; push inserts in order, after existing
entries with an equal expiry. -/
def heapPush : List SortWagerByTime → SortWagerByTime → List SortWagerByTime
  | [], e => [e]
  | x :: rest, e => if e.at_ < x.at_ then e :: x :: rest else x :: heapPush rest e

/-- Modelled from the spec: section 6 consumes
isValidAccountIdentifier(string) -> bool from the host (env.isValidAccountID
in the source). Modelled as the NEAR account-id syntax: length between 2 and
64, lowercase alphanumerics and the separators dash, underscore, dot, starting
and ending with an alphanumeric, and no two adjacent separators. -/
def isSepChar (c : Char) : Bool := c = '-' || c = '_' || c = '.'

def isAccountChar (c : Char) : Bool := c.isLower || c.isDigit || isSepChar c

def noAdjacentSep : List Char → Bool
  | [] => true
  | [_] => true
  | a :: b :: rest => (!(isSepChar a && isSepChar b)) && noAdjacentSep (b :: rest)

def isValidAccountID (s : String) : Bool :=
  decide (2 ≤ s.data.length) && decide (s.data.length ≤ 64) &&
    s.data.all isAccountChar &&
    (match s.data with
     | [] => false
     | c :: _ => !isSepChar c) &&
    (match s.data.getLast? with
     | none => false
     | some c => !isSepChar c) &&
    noAdjacentSep s.data

/-- Contract persistent state: the wagerId storage counter (getPrimitive
default 1), the minted flag, the oracle string, and the five collections. -/
structure ContractState where
  nextWagerId : Nat
  minted : Bool
  oracle : Option String
  balances : List (String × Nat)
  wagers : List (Nat × Wager)
  userWagers : List (String × List Nat)
  openWagers : List (String × List Nat)
  acceptedWagers : List (String × List SortWagerByTime)
deriving DecidableEq

def initState : ContractState :=
  { nextWagerId := 1, minted := false, oracle := none, balances := [],
    wagers := [], userWagers := [], openWagers := [], acceptedWagers := [] }

/-- Call context: context.predecessor and context.blockTimestamp. -/
structure Ctx where
  predecessor : String
  blockTimestamp : Nat
deriving DecidableEq

def getBalance (st : ContractState) (a : String) : Nat :=
  (alGet st.balances a).getD 0

def getWagersForAccount (st : ContractState) (a : String) : List Nat :=
  (alGet st.userWagers a).getD []

def getOpenWagersForSymbol (st : ContractState) (s : String) : List Nat :=
  match alGet st.openWagers s with
  | some l => l
  | none => []

def getAcceptedWagersForSymbol (st : ContractState) (s : String) : List Nat :=
  match alGet st.acceptedWagers s with
  | some q => q.map (fun e => e.wagerId)
  | none => []

def getTotalSupply : Nat := TOTAL_SUPPLY

def mint (ctx : Ctx) (st : ContractState) : Except Err ContractState :=
  if st.minted then .error .AlreadyMinted
  else .ok { st with minted := true, oracle := some ctx.predecessor,
                     balances := alSet st.balances ctx.predecessor TOTAL_SUPPLY }

def transfer (ctx : Ctx) (to_ : String) (amount : Nat) (st : ContractState) :
    Except Err ContractState :=
  if ¬ (0 < amount) then .error .InvalidAmount
  else if ¬ isValidAccountID to_ then .error .InvalidAccount
  else
    match alGet st.balances ctx.predecessor with
    | none => .error .InvalidAccount
    | some balanceOfOwner =>
      if balanceOfOwner < amount then .error .InsufficientBalance
      else
        let balanceOfNewOwner := (alGet st.balances to_).getD 0
        let b1 := alSet st.balances ctx.predecessor (sub128 balanceOfOwner amount)
        let b2 := alSet b1 to_ (add128 balanceOfNewOwner amount)
        .ok { st with balances := b2 }

def createWager (ctx : Ctx) (symbol : String) (isOver : Bool)
    (value bet at_ allowCancelAt : Nat) (st : ContractState) :
    Except Err (Nat × ContractState) :=
  if ¬ (0 < bet) then .error .InvalidAmount
  else if ¬ (0 < value) then .error .InvalidAmount
  else if ¬ (ctx.blockTimestamp < at_) then .error .InvalidTime
  else if ¬ (symbol.length ≤ MAX_SYMBOL_LENGTH) then .error .InvalidSymbol
  else
    match alGet st.balances ctx.predecessor with
    | none => .error .InvalidAccount
    | some balance =>
      if balance < bet then .error .InsufficientBalance
      else
        let wid := st.nextWagerId
        let wager : Wager :=
          { id := wid, symbol := symbol, value := value, at_ := at_,
            allowCancelAt := allowCancelAt, bet := bet,
            over := if isOver then ctx.predecessor else "",
            under := if isOver then "" else ctx.predecessor }
        let uw := (alGet st.userWagers ctx.predecessor).getD []
        let ow := (alGet st.openWagers symbol).getD []
        .ok (wid,
          { st with
            nextWagerId := (wid + 1) % U64MOD,
            balances := alSet st.balances ctx.predecessor (sub128 balance bet),
            wagers := alSet st.wagers wager.id wager,
            userWagers := alSet st.userWagers ctx.predecessor (uw ++ [wager.id]),
            openWagers := alSet st.openWagers symbol (setAdd ow wager.id) })

def acceptWager (ctx : Ctx) (wagerIdArg : Nat) (st : ContractState) :
    Except Err ContractState :=
  match alGet st.wagers wagerIdArg with
  | none => .error .InvalidWager
  | some wager =>
    if ¬ alContains st.balances ctx.predecessor then .error .InvalidAccount
    else if ¬ (ctx.blockTimestamp < wager.at_ ∧
               (wager.under = "" ∨ wager.over = "") ∧
               wager.over ≠ ctx.predecessor ∧ wager.under ≠ ctx.predecessor)
    then .error .CannotAccept
    else if (alGet st.balances ctx.predecessor).getD 0 < wager.bet then
      .error .InsufficientBalance
    else
      match alGet st.openWagers wager.symbol with
      | none => .error .KeyNotFound
      | some ow =>
        let balance := (alGet st.balances ctx.predecessor).getD 0
        let wager2 :=
          if wager.over = "" then { wager with over := ctx.predecessor }
          else { wager with under := ctx.predecessor }
        let uw := (alGet st.userWagers ctx.predecessor).getD []
        let aw := (alGet st.acceptedWagers wager.symbol).getD []
        .ok { st with
          balances := alSet st.balances ctx.predecessor (sub128 balance wager.bet),
          wagers := alSet st.wagers wager2.id wager2,
          userWagers := alSet st.userWagers ctx.predecessor (uw ++ [wager2.id]),
          openWagers := alSet st.openWagers wager.symbol (ow.erase wager2.id),
          acceptedWagers := alSet st.acceptedWagers wager.symbol
            (heapPush aw { wagerId := wager2.id, at_ := wager2.at_ }) }

/-- Array splice of index.ts deleteWager: splice(indexOf(id), 1). indexOf of
an absent id is minus one, and a splice at minus one removes the last
element. -/
def spliceRemove (l : List Nat) (x : Nat) : List Nat :=
  if x ∈ l then l.erase x else l.dropLast

/-- State change of a successful deleteWager, given the caller's fetched
wager list l. -/
def deleteWagerApply (ctx : Ctx) (wager : Wager) (l : List Nat)
    (st : ContractState) : ContractState :=
  { st with
    userWagers := alSet st.userWagers ctx.predecessor (spliceRemove l wager.id),
    wagers := alDelete st.wagers wager.id }

def deleteWagerStep (ctx : Ctx) (wager : Wager) (st : ContractState) :
    Except Err ContractState :=
  match alGet st.userWagers ctx.predecessor with
  | none => .error .KeyNotFound
  | some l => .ok (deleteWagerApply ctx wager l st)

def cancelWager (ctx : Ctx) (wagerIdArg : Nat) (st : ContractState) :
    Except Err ContractState :=
  if ¬ alContains st.wagers wagerIdArg then .error .InvalidWager
  else if ¬ alContains st.userWagers ctx.predecessor then .error .InvalidAccount
  else
    match alGet st.wagers wagerIdArg with
    | none => .error .InvalidWager
    | some wager =>
      if ¬ ((wager.over = ctx.predecessor ∧ wager.under = "") ∨
            (wager.under = ctx.predecessor ∧ wager.over = "") ∨
            (wager.allowCancelAt ≠ 0 ∧ wager.allowCancelAt < ctx.blockTimestamp))
      then .error .CannotCancel
      else
        match alGet st.userWagers ctx.predecessor with
        | none => .error .KeyNotFound
        | some l =>
          match alGet st.openWagers wager.symbol with
          | none => .error .KeyNotFound
          | some ow =>
            match alGet st.balances ctx.predecessor with
            | none => .error .KeyNotFound
            | some balance =>
              .ok { deleteWagerApply ctx wager l st with
                openWagers := alSet st.openWagers wager.symbol (ow.erase wager.id),
                balances := alSet st.balances ctx.predecessor
                  (add128 balance wager.bet) }

def distributeWinnings (wager : Wager) (symbolValue : Nat) (st : ContractState) :
    Except Err ContractState :=
  if wager.value < symbolValue then
    match alGet st.balances wager.over with
    | none => .error .KeyNotFound
    | some overBalance =>
      let winnings := add128 wager.bet wager.bet
      let b1 := alSet st.balances wager.over (add128 overBalance winnings)
      .ok { st with balances := b1 }
  else if symbolValue < wager.value then
    match alGet st.balances wager.under with
    | none => .error .KeyNotFound
    | some underBalance =>
      let winnings := add128 wager.bet wager.bet
      let b1 := alSet st.balances wager.under (add128 underBalance winnings)
      .ok { st with balances := b1 }
  else
    match alGet st.balances wager.under, alGet st.balances wager.over with
    | some underBalance, some overBalance =>
      let b1 := alSet st.balances wager.under (add128 underBalance wager.bet)
      let b2 := alSet b1 wager.over (add128 overBalance wager.bet)
      .ok { st with balances := b2 }
    | _, _ => .error .KeyNotFound

def reportLoop (ctx : Ctx) (value : Nat) :
    List SortWagerByTime → ContractState →
    Except Err (List SortWagerByTime × ContractState)
  | [], st => .ok ([], st)
  | top :: rest, st =>
    if top.at_ < ctx.blockTimestamp then
      match alGet st.wagers top.wagerId with
      | none => .error .KeyNotFound
      | some wager =>
        match distributeWinnings wager value st with
        | .error e => .error e
        | .ok st1 =>
          match deleteWagerStep ctx wager st1 with
          | .error e => .error e
          | .ok st2 => reportLoop ctx value rest st2
    else .ok (top :: rest, st)

def reportSymbol (ctx : Ctx) (symbol : String) (value : Nat)
    (st : ContractState) : Except Err ContractState :=
  if st.oracle ≠ some ctx.predecessor then .error .InvalidAccount
  else
    match alGet st.acceptedWagers symbol with
    | none => .ok st
    | some q =>
      match reportLoop ctx value q st with
      | .error e => .error e
      | .ok (q2, st2) =>
        .ok { st2 with acceptedWagers := alSet st2.acceptedWagers symbol q2 }

/-- One externally submitted call: entry point together with the caller
identity and the block timestamp the host supplies for that call. -/
inductive Op where
  | mintOp (pred : String) (t : Nat)
  | transferOp (pred : String) (t : Nat) (to_ : String) (amount : Nat)
  | createOp (pred : String) (t : Nat) (symbol : String) (isOver : Bool)
      (value bet at_ allowCancelAt : Nat)
  | acceptOp (pred : String) (t : Nat) (wid : Nat)
  | cancelOp (pred : String) (t : Nat) (wid : Nat)
  | reportOp (pred : String) (t : Nat) (symbol : String) (value : Nat)
deriving DecidableEq

/-- One call against the persisted state: a failed assertion discards every
mutation of the call (section 5 of the spec), so an error leaves the state
untouched. -/
def step (st : ContractState) : Op → ContractState
  | .mintOp p t =>
    match mint ⟨p, t⟩ st with
    | .ok st2 => st2
    | .error _ => st
  | .transferOp p t to_ amount =>
    match transfer ⟨p, t⟩ to_ amount st with
    | .ok st2 => st2
    | .error _ => st
  | .createOp p t symbol isOver value bet at_ allowCancelAt =>
    match createWager ⟨p, t⟩ symbol isOver value bet at_ allowCancelAt st with
    | .ok r => r.2
    | .error _ => st
  | .acceptOp p t wid =>
    match acceptWager ⟨p, t⟩ wid st with
    | .ok st2 => st2
    | .error _ => st
  | .cancelOp p t wid =>
    match cancelWager ⟨p, t⟩ wid st with
    | .ok st2 => st2
    | .error _ => st
  | .reportOp p t symbol value =>
    match reportSymbol ⟨p, t⟩ symbol value st with
    | .ok st2 => st2
    | .error _ => st

def run (st : ContractState) : List Op → ContractState
  | [] => st
  | op :: rest => run (step st op) rest

/-- Ids returned by the successful createWager calls of a trace, in call
order. -/
def createdIds (st : ContractState) : List Op → List Nat
  | [] => []
  | .createOp p t symbol isOver value bet at_ allowCancelAt :: rest =>
    (match createWager ⟨p, t⟩ symbol isOver value bet at_ allowCancelAt st with
     | .ok r => r.1 :: createdIds r.2 rest
     | .error _ => createdIds st rest)
  | op :: rest => createdIds (step st op) rest

def resultOk {α : Type} (e : Except Err α) : Bool :=
  match e with
  | .ok _ => true
  | .error _ => false

def sumBalances (st : ContractState) : Nat :=
  (st.balances.map (fun p => p.2)).sum

/-- Escrow held by a non-terminal wager record: one bet while Open (one side
empty), two bets once Matched (both sides occupied). -/
def escrowOf (w : Wager) : Nat :=
  if w.over ≠ "" ∧ w.under ≠ "" then 2 * w.bet else w.bet

def sumEscrow (st : ContractState) : Nat :=
  (st.wagers.map (fun p => escrowOf p.2)).sum

/-! Concrete traces used to exercise the entry points. -/

/-- Mint to oo, fund ab with 10, then ab transfers 5 to itself. -/
def opsC1 : List Op :=
  [.mintOp "oo" 0, .transferOp "oo" 0 "ab" 10, .transferOp "ab" 0 "ab" 5]

/-- Mint to oo, fund aa and bb, aa opens wager 1 on sy (bet 10, strike 100,
expiry 50), bb accepts it, oo opens wager 2 on zz, then oo reports sy at
time 60 with value 120, settling wager 1. -/
def opsC2 : List Op :=
  [.mintOp "oo" 0, .transferOp "oo" 0 "aa" 10, .transferOp "oo" 0 "bb" 10,
   .createOp "aa" 0 "sy" true 100 10 50 0,
   .acceptOp "bb" 0 1,
   .createOp "oo" 0 "zz" true 1 1 99 0,
   .reportOp "oo" 60 "sy" 120]

/-- Mint to oo, fund aa and bb, aa opens four wagers on sy expiring at 10,
10, 15 and 20 (bet 10, strike 100 each), bb accepts all four. -/
def opsC4 : List Op :=
  [.mintOp "oo" 0, .transferOp "oo" 0 "aa" 40, .transferOp "oo" 0 "bb" 40,
   .createOp "aa" 0 "sy" true 100 10 10 0,
   .createOp "aa" 0 "sy" true 100 10 10 0,
   .createOp "aa" 0 "sy" true 100 10 15 0,
   .createOp "aa" 0 "sy" true 100 10 20 0,
   .acceptOp "bb" 0 1, .acceptOp "bb" 0 2, .acceptOp "bb" 0 3, .acceptOp "bb" 0 4]

/-- Mint to oo, fund aa and bb, aa opens wager 1 on sy with allowCancelAt 5
(expiry 100), bb accepts it, so wager 1 is Matched. -/
def opsC5 : List Op :=
  [.mintOp "oo" 0, .transferOp "oo" 0 "aa" 10, .transferOp "oo" 0 "bb" 10,
   .createOp "aa" 0 "sy" true 100 10 100 5,
   .acceptOp "bb" 0 1]

/-- Mint to oo, fund ab with 20. -/
def opsC9 : List Op :=
  [.mintOp "oo" 0, .transferOp "oo" 0 "ab" 20]

/-- C1: the conservation claim fails on the code. In the reachable state
after opsC1 (mint to oo, fund ab with 10, ab self-transfers 5), the sum of
all balances plus all escrowed bets exceeds the fixed total supply by 5:
transfer reads the recipient balance before debiting the sender, so a
self-transfer credits without a net debit. -/
theorem conservation_broken_by_self_transfer :
    sumBalances (run initState opsC1) + sumEscrow (run initState opsC1) =
      TOTAL_SUPPLY + 5 := by decide

/-- C2: after opsC2 settles Matched wager 1 between aa and bb via
reportSymbol, the record is deleted, yet the id 1 is still returned by
getWagersForAccount for both occupying accounts aa and bb; the settlement
path instead spliced the reporter oo's own wager list, silently dropping
oo's unrelated wager id 2. -/
theorem settled_wager_left_in_party_lists :
    alContains (run initState opsC2).wagers 1 = false ∧
    getWagersForAccount (run initState opsC2) "aa" = [1] ∧
    getWagersForAccount (run initState opsC2) "bb" = [1] ∧
    getWagersForAccount (run initState opsC2) "oo" = [] := by decide

/-- C4: with the queue for sy holding matched wagers expiring at
[10, 10, 15, 20] (state after opsC4) and the stored reporter oo reporting at
time 16, the claim says exactly the first three settle; the code instead
aborts the whole call (deleteWager looks up the reporter's per-account wager
list, which does not exist) and, the call being atomic, zero wagers settle
and all four stay queued. -/
theorem report_aborts_with_matured_queue :
    getAcceptedWagersForSymbol (run initState opsC4) "sy" = [1, 2, 3, 4] ∧
    resultOk (reportSymbol ⟨"oo", 16⟩ "sy" 120 (run initState opsC4)) = false ∧
    getAcceptedWagersForSymbol
      (step (run initState opsC4) (.reportOp "oo" 16 "sy" 120)) "sy" =
      [1, 2, 3, 4] := by decide

/-- C9: in the reachable state after opsC9 the account ab holds balance 20;
the self-transfer transfer(ab, 5) called by ab succeeds but leaves ab with
balance 25, not 20: the recipient balance is read before the sender is
debited, so the debit is overwritten by the credit. -/
theorem self_transfer_inflates_balance :
    getBalance (run initState opsC9) "ab" = 20 ∧
    resultOk (transfer ⟨"ab", 0⟩ "ab" 5 (run initState opsC9)) = true ∧
    getBalance (step (run initState opsC9) (.transferOp "ab" 0 "ab" 5)) "ab" =
      25 := by decide

/-! Association list lemmas. -/

theorem alGet_alSet_self {K V : Type} [DecidableEq K] (m : List (K × V))
    (k : K) (v : V) : alGet (alSet m k v) k = some v := by
  induction m with
  | nil => simp [alSet, alGet]
  | cons p rest ih =>
    by_cases h : p.1 = k
    · simp [alSet, h, alGet]
    · simp [alSet, h, alGet, ih]

theorem alGet_alSet_ne {K V : Type} [DecidableEq K] (m : List (K × V))
    (k k2 : K) (v : V) (h : k2 ≠ k) :
    alGet (alSet m k v) k2 = alGet m k2 := by
  induction m with
  | nil =>
    simp only [alSet, alGet]
    exact if_neg (fun hh : k = k2 => h hh.symm)
  | cons p rest ih =>
    by_cases hp : p.1 = k
    · subst hp
      simp only [alSet, if_pos rfl, alGet]
      rw [if_neg (fun hh : p.1 = k2 => h hh.symm),
        if_neg (fun hh : p.1 = k2 => h hh.symm)]
    · simp [alSet, hp, alGet, ih]

theorem alSet_get_same {K V : Type} [DecidableEq K] (m : List (K × V))
    (k : K) (v : V) (h : alGet m k = some v) : alSet m k v = m := by
  induction m with
  | nil => simp [alGet] at h
  | cons p rest ih =>
    by_cases hp : p.1 = k
    · subst hp
      simp [alGet] at h
      simp [alSet, h.symm]
    · simp [alGet, hp] at h
      simp [alSet, hp, ih h]

theorem alGet_alDelete_self {K V : Type} [DecidableEq K] (m : List (K × V))
    (k : K) : alGet (alDelete m k) k = none := by
  induction m with
  | nil => simp [alDelete, alGet]
  | cons p rest ih =>
    by_cases hp : p.1 = k
    · simp [alDelete, hp, ih]
    · simp [alDelete, hp, alGet, ih]

theorem heapPush_mem (l : List SortWagerByTime) (e : SortWagerByTime) :
    e ∈ heapPush l e := by
  induction l with
  | nil => simp [heapPush]
  | cons x rest ih =>
    by_cases h : e.at_ < x.at_
    · simp [heapPush, h]
    · simp [heapPush, h]
      right
      exact ih

theorem add128_small (a b : Nat) (h : a + b < U128MOD) : add128 a b = a + b :=
  Nat.mod_eq_of_lt h

theorem add128_add128 (a b : Nat) (h : a + 2 * b < U128MOD) :
    add128 a (add128 b b) = a + 2 * b := by
  have hb : b + b < U128MOD :=
    Nat.lt_of_le_of_lt (by omega) h
  rw [add128_small b b hb, add128_small a (b + b) (by omega)]
  omega

/-- C3: the payout table of distributeWinnings for a Matched wager with
strike w.value, bet w.bet and reported value v: value above strike credits
two bets to the over account and nothing to the under account, value below
strike credits two bets to the under account and nothing to the over
account, an exact hit credits one bet to each, and no other account's
balance changes. -/
theorem distributeWinnings_payout (st : ContractState) (w : Wager)
    (v bo bu : Nat)
    (ho : alGet st.balances w.over = some bo)
    (hu : alGet st.balances w.under = some bu)
    (hne : w.over ≠ w.under)
    (hbo : bo + 2 * w.bet < U128MOD)
    (hbu : bu + 2 * w.bet < U128MOD) :
    ∃ st2, distributeWinnings w v st = .ok st2 ∧
      (w.value < v →
        getBalance st2 w.over = bo + 2 * w.bet ∧
        getBalance st2 w.under = bu) ∧
      (v < w.value →
        getBalance st2 w.under = bu + 2 * w.bet ∧
        getBalance st2 w.over = bo) ∧
      (v = w.value →
        getBalance st2 w.over = bo + w.bet ∧
        getBalance st2 w.under = bu + w.bet) ∧
      (∀ a, a ≠ w.over → a ≠ w.under → getBalance st2 a = getBalance st a) := by
  have hne2 : w.under ≠ w.over := Ne.symm hne
  rcases Nat.lt_trichotomy v w.value with hv | hv | hv
  · refine ⟨{ st with balances := alSet st.balances w.under (add128 bu (add128 w.bet w.bet)) }, ?_, ?_, ?_, ?_, ?_⟩
    · simp only [distributeWinnings, if_neg (Nat.lt_asymm hv), if_pos hv, hu]
    · intro h
      exact absurd h (Nat.lt_asymm hv)
    · intro _
      constructor
      · simp only [getBalance, alGet_alSet_self, Option.getD_some]
        exact add128_add128 bu w.bet hbu
      · simp only [getBalance, alGet_alSet_ne _ _ _ _ hne, ho, Option.getD_some]
    · intro h
      omega
    · intro a _ ha2
      simp only [getBalance, alGet_alSet_ne _ _ _ _ ha2]
  · refine ⟨{ st with balances := alSet (alSet st.balances w.under (add128 bu w.bet)) w.over (add128 bo w.bet) }, ?_, ?_, ?_, ?_, ?_⟩
    · simp only [distributeWinnings, hv, if_neg (Nat.lt_irrefl w.value), hu, ho]
    · intro h
      rw [hv] at h
      exact absurd h (Nat.lt_irrefl _)
    · intro h
      rw [hv] at h
      exact absurd h (Nat.lt_irrefl _)
    · intro _
      constructor
      · simp only [getBalance, alGet_alSet_self, Option.getD_some]
        exact add128_small bo w.bet (by omega)
      · simp only [getBalance, alGet_alSet_ne _ _ _ _ hne2, alGet_alSet_self,
          Option.getD_some]
        exact add128_small bu w.bet (by omega)
    · intro a ha1 ha2
      simp only [getBalance, alGet_alSet_ne _ _ _ _ ha1,
        alGet_alSet_ne _ _ _ _ ha2]
  · refine ⟨{ st with balances := alSet st.balances w.over (add128 bo (add128 w.bet w.bet)) }, ?_, ?_, ?_, ?_, ?_⟩
    · simp only [distributeWinnings, if_pos hv, ho]
    · intro _
      constructor
      · simp only [getBalance, alGet_alSet_self, Option.getD_some]
        exact add128_add128 bo w.bet hbo
      · simp only [getBalance, alGet_alSet_ne _ _ _ _ hne2, hu, Option.getD_some]
    · intro h
      exact absurd h (Nat.lt_asymm hv)
    · intro h
      omega
    · intro a ha1 _
      simp only [getBalance, alGet_alSet_ne _ _ _ _ ha1]

/-- Witness for C3 at a concrete input: balances aa 3 and bb 4, wager with
strike 100 and bet 10 between over aa and under bb, reported value 120. -/
theorem distributeWinnings_payout_witness :
    ∃ st2,
      distributeWinnings
        { id := 1, symbol := "sy", value := 100, at_ := 50, allowCancelAt := 0,
          bet := 10, over := "aa", under := "bb" } 120
        { initState with balances := [("aa", 3), ("bb", 4)] } = .ok st2 ∧
      (100 < 120 →
        getBalance st2 "aa" = 3 + 2 * 10 ∧ getBalance st2 "bb" = 4) ∧
      (120 < 100 →
        getBalance st2 "bb" = 4 + 2 * 10 ∧ getBalance st2 "aa" = 3) ∧
      (120 = 100 →
        getBalance st2 "aa" = 3 + 10 ∧ getBalance st2 "bb" = 4 + 10) ∧
      (∀ a, a ≠ "aa" → a ≠ "bb" → getBalance st2 a =
        getBalance { initState with balances := [("aa", 3), ("bb", 4)] } a) :=
  distributeWinnings_payout
    { initState with balances := [("aa", 3), ("bb", 4)] }
    { id := 1, symbol := "sy", value := 100, at_ := 50, allowCancelAt := 0,
      bet := 10, over := "aa", under := "bb" }
    120 3 4 (by decide) (by decide) (by decide) (by decide) (by decide)

/-! Frame lemmas: which singleton fields each entry point can touch. -/

theorem mint_frame (ctx : Ctx) (st st2 : ContractState)
    (h : mint ctx st = .ok st2) : st2.nextWagerId = st.nextWagerId := by
  unfold mint at h
  split at h
  · exact Except.noConfusion h
  · cases Except.ok.inj h
    rfl

theorem transfer_frame (ctx : Ctx) (to_ : String) (amount : Nat)
    (st st2 : ContractState) (h : transfer ctx to_ amount st = .ok st2) :
    st2.minted = st.minted ∧ st2.oracle = st.oracle ∧
      st2.nextWagerId = st.nextWagerId := by
  unfold transfer at h
  repeat' split at h
  all_goals try exact Except.noConfusion h
  cases Except.ok.inj h
  exact ⟨rfl, rfl, rfl⟩

theorem createWager_frame (ctx : Ctx) (symbol : String) (isOver : Bool)
    (value bet at_ allowCancelAt : Nat) (st : ContractState)
    (r : Nat × ContractState)
    (h : createWager ctx symbol isOver value bet at_ allowCancelAt st = .ok r) :
    r.2.minted = st.minted ∧ r.2.oracle = st.oracle := by
  unfold createWager at h
  repeat' split at h
  all_goals try exact Except.noConfusion h
  all_goals cases Except.ok.inj h
  all_goals exact ⟨rfl, rfl⟩

theorem acceptWager_frame (ctx : Ctx) (wid : Nat) (st st2 : ContractState)
    (h : acceptWager ctx wid st = .ok st2) :
    st2.minted = st.minted ∧ st2.oracle = st.oracle ∧
      st2.nextWagerId = st.nextWagerId := by
  unfold acceptWager at h
  repeat' split at h
  all_goals try exact Except.noConfusion h
  all_goals cases Except.ok.inj h
  all_goals exact ⟨rfl, rfl, rfl⟩

theorem deleteWagerStep_frame (ctx : Ctx) (w : Wager) (st st2 : ContractState)
    (h : deleteWagerStep ctx w st = .ok st2) :
    st2.minted = st.minted ∧ st2.oracle = st.oracle ∧
      st2.nextWagerId = st.nextWagerId := by
  unfold deleteWagerStep deleteWagerApply at h
  split at h
  · exact Except.noConfusion h
  · cases Except.ok.inj h
    exact ⟨rfl, rfl, rfl⟩

theorem cancelWager_frame (ctx : Ctx) (wid : Nat) (st st2 : ContractState)
    (h : cancelWager ctx wid st = .ok st2) :
    st2.minted = st.minted ∧ st2.oracle = st.oracle ∧
      st2.nextWagerId = st.nextWagerId := by
  unfold cancelWager deleteWagerApply at h
  repeat' split at h
  all_goals try exact Except.noConfusion h
  all_goals cases Except.ok.inj h
  all_goals exact ⟨rfl, rfl, rfl⟩

theorem distributeWinnings_frame (w : Wager) (v : Nat)
    (st st2 : ContractState) (h : distributeWinnings w v st = .ok st2) :
    st2.minted = st.minted ∧ st2.oracle = st.oracle ∧
      st2.nextWagerId = st.nextWagerId := by
  unfold distributeWinnings at h
  repeat' split at h
  all_goals try exact Except.noConfusion h
  all_goals cases Except.ok.inj h
  all_goals exact ⟨rfl, rfl, rfl⟩

theorem reportLoop_frame (ctx : Ctx) (value : Nat) (q : List SortWagerByTime)
    (st : ContractState) (r : List SortWagerByTime × ContractState)
    (h : reportLoop ctx value q st = .ok r) :
    r.2.minted = st.minted ∧ r.2.oracle = st.oracle ∧
      r.2.nextWagerId = st.nextWagerId := by
  induction q generalizing st with
  | nil =>
    unfold reportLoop at h
    cases h
    exact ⟨rfl, rfl, rfl⟩
  | cons top rest ih =>
    unfold reportLoop at h
    repeat' split at h
    all_goals try exact Except.noConfusion h
    · rename_i x1 w hw x2 st1 hdist x3 st1b hdel
      have h1 := distributeWinnings_frame _ _ _ _ hdist
      have h2 := deleteWagerStep_frame _ _ _ _ hdel
      have h3 := ih _ h
      exact ⟨by rw [h3.1, h2.1, h1.1], by rw [h3.2.1, h2.2.1, h1.2.1],
        by rw [h3.2.2, h2.2.2, h1.2.2]⟩
    · cases Except.ok.inj h
      exact ⟨rfl, rfl, rfl⟩

theorem reportSymbol_frame (ctx : Ctx) (symbol : String) (value : Nat)
    (st st2 : ContractState) (h : reportSymbol ctx symbol value st = .ok st2) :
    st2.minted = st.minted ∧ st2.oracle = st.oracle ∧
      st2.nextWagerId = st.nextWagerId := by
  unfold reportSymbol at h
  repeat' split at h
  all_goals try exact Except.noConfusion h
  · cases Except.ok.inj h
    exact ⟨rfl, rfl, rfl⟩
  · rename_i q hq q2 st2x hloop
    cases Except.ok.inj h
    have hf := reportLoop_frame _ _ _ _ _ hloop
    exact ⟨hf.1, hf.2.1, hf.2.2⟩

/-- Check that the symbol has no matured queue entry: either no matched
queue at all, or its earliest entry's expiry is not strictly before t. -/
def noMaturedEntry (st : ContractState) (symbol : String) (t : Nat) : Bool :=
  match alGet st.acceptedWagers symbol with
  | none => true
  | some q =>
    match q.head? with
    | none => true
    | some e => decide (t ≤ e.at_)

/-- C10: a reportSymbol call by the stored reporter, for a symbol that has
no matched queue or whose earliest queued expiry is not strictly before the
current time, succeeds and returns the state completely unchanged. -/
theorem report_no_matured_is_noop (ctx : Ctx) (st : ContractState)
    (symbol : String) (value : Nat)
    (hor : st.oracle = some ctx.predecessor)
    (hq : noMaturedEntry st symbol ctx.blockTimestamp = true) :
    reportSymbol ctx symbol value st = .ok st := by
  unfold reportSymbol
  rw [if_neg (by simp [hor])]
  unfold noMaturedEntry at hq
  cases hget : alGet st.acceptedWagers symbol with
  | none => rfl
  | some q =>
    rw [hget] at hq
    cases q with
    | nil =>
      simp only [reportLoop]
      rw [alSet_get_same _ _ _ hget]
    | cons top rest =>
      simp only [List.head?] at hq
      have ht : ¬ top.at_ < ctx.blockTimestamp := Nat.not_lt.mpr (by
        simpa using hq)
      simp only [reportLoop, if_neg ht]
      rw [alSet_get_same _ _ _ hget]

/-- Oracle oo with one queued entry for sy expiring at time 9. -/
def stW10 : ContractState :=
  { initState with
    oracle := some "oo",
    acceptedWagers := [("sy", [{ wagerId := 1, at_ := 9 }])] }

/-- Witness for C10 at a concrete input: oracle oo reports sy at time 5
while the single queued entry expires at 9, so nothing settles and the
state is returned unchanged. -/
theorem report_no_matured_is_noop_witness :
    reportSymbol ⟨"oo", 5⟩ "sy" 120 stW10 = .ok stW10 :=
  report_no_matured_is_noop ⟨"oo", 5⟩ stW10 "sy" 120 rfl (by decide)

/-- C8: the first mint call (from the initial state) succeeds, credits the
whole fixed supply to the caller and records the caller as the reporter;
once the minted flag is set every further mint call fails with
AlreadyMinted and, the call aborting atomically, changes nothing; and the
minted flag, once true, survives every entry point. -/
theorem mint_exactly_once :
    (∀ ctx : Ctx, ∃ st1, mint ctx initState = .ok st1 ∧ st1.minted = true ∧
      st1.oracle = some ctx.predecessor ∧
      getBalance st1 ctx.predecessor = TOTAL_SUPPLY) ∧
    (∀ (st : ContractState) (ctx : Ctx), st.minted = true →
      mint ctx st = .error .AlreadyMinted) ∧
    (∀ (st : ContractState) (p : String) (t : Nat), st.minted = true →
      step st (.mintOp p t) = st) ∧
    (∀ (st : ContractState) (op : Op), st.minted = true →
      (step st op).minted = true) := by
  refine ⟨?_, ?_, ?_, ?_⟩
  · intro ctx
    refine ⟨{ initState with minted := true, oracle := some ctx.predecessor, balances := alSet initState.balances ctx.predecessor TOTAL_SUPPLY }, rfl, rfl, rfl, ?_⟩
    simp [getBalance, alGet_alSet_self]
  · intro st ctx h
    simp [mint, h]
  · intro st p t h
    simp [step, mint, h]
  · intro st op h
    cases op with
    | mintOp p t =>
      simp [step, mint, h]
    | transferOp p t to_ amount =>
      simp only [step]
      split
      · rename_i st2 h2
        rw [(transfer_frame _ _ _ _ _ h2).1, h]
      · exact h
    | createOp p t symbol isOver value bet at_ allowCancelAt =>
      simp only [step]
      split
      · rename_i r h2
        rw [(createWager_frame _ _ _ _ _ _ _ _ _ h2).1, h]
      · exact h
    | acceptOp p t wid =>
      simp only [step]
      split
      · rename_i st2 h2
        rw [(acceptWager_frame _ _ _ _ h2).1, h]
      · exact h
    | cancelOp p t wid =>
      simp only [step]
      split
      · rename_i st2 h2
        rw [(cancelWager_frame _ _ _ _ h2).1, h]
      · exact h
    | reportOp p t symbol value =>
      simp only [step]
      split
      · rename_i st2 h2
        rw [(reportSymbol_frame _ _ _ _ _ h2).1, h]
      · exact h

/-- Witness for C8 at concrete inputs: oo mints from the initial state; a
second mint in a minted state fails AlreadyMinted and leaves the state; and
a transfer step keeps the minted flag. -/
theorem mint_exactly_once_witness :
    (∃ st1, mint ⟨"oo", 0⟩ initState = .ok st1 ∧ st1.minted = true ∧
      st1.oracle = some "oo" ∧ getBalance st1 "oo" = TOTAL_SUPPLY) ∧
    mint ⟨"ab", 1⟩ { initState with minted := true } =
      .error .AlreadyMinted ∧
    step { initState with minted := true } (.mintOp "ab" 1) =
      { initState with minted := true } ∧
    (step { initState with minted := true }
      (.transferOp "oo" 1 "ab" 5)).minted = true :=
  ⟨mint_exactly_once.1 ⟨"oo", 0⟩,
   mint_exactly_once.2.1 { initState with minted := true } ⟨"ab", 1⟩ rfl,
   mint_exactly_once.2.2.1 { initState with minted := true } "ab" 1 rfl,
   mint_exactly_once.2.2.2 { initState with minted := true }
     (.transferOp "oo" 1 "ab" 5) rfl⟩

/-- C6: acceptWager fails InvalidWager on an unknown id, InvalidAccount
when the caller has no balance record, CannotAccept when the wager is
expired or fully matched or the caller already occupies a side, and
InsufficientBalance when the caller's balance is below the bet; on success
it debits the caller by the bet, fills the empty side with the caller,
appends the id to the caller's wager list, removes the id from the symbol's
open-set and inserts it into the symbol's expiry-keyed matched queue. -/
theorem acceptWager_checks_and_effects (ctx : Ctx) (wid : Nat)
    (st : ContractState) :
    (alGet st.wagers wid = none →
      acceptWager ctx wid st = .error .InvalidWager) ∧
    (∀ w, alGet st.wagers wid = some w →
      alContains st.balances ctx.predecessor = false →
      acceptWager ctx wid st = .error .InvalidAccount) ∧
    (∀ w, alGet st.wagers wid = some w →
      alContains st.balances ctx.predecessor = true →
      ¬ (ctx.blockTimestamp < w.at_ ∧ (w.under = "" ∨ w.over = "") ∧
         w.over ≠ ctx.predecessor ∧ w.under ≠ ctx.predecessor) →
      acceptWager ctx wid st = .error .CannotAccept) ∧
    (∀ w, alGet st.wagers wid = some w →
      alContains st.balances ctx.predecessor = true →
      (ctx.blockTimestamp < w.at_ ∧ (w.under = "" ∨ w.over = "") ∧
        w.over ≠ ctx.predecessor ∧ w.under ≠ ctx.predecessor) →
      getBalance st ctx.predecessor < w.bet →
      acceptWager ctx wid st = .error .InsufficientBalance) ∧
    (∀ w ow, alGet st.wagers wid = some w → w.id = wid →
      alContains st.balances ctx.predecessor = true →
      (ctx.blockTimestamp < w.at_ ∧ (w.under = "" ∨ w.over = "") ∧
        w.over ≠ ctx.predecessor ∧ w.under ≠ ctx.predecessor) →
      w.bet ≤ getBalance st ctx.predecessor →
      alGet st.openWagers w.symbol = some ow → ow.Nodup →
      ∃ st2, acceptWager ctx wid st = .ok st2 ∧
        getBalance st2 ctx.predecessor =
          getBalance st ctx.predecessor - w.bet ∧
        alGet st2.wagers wid =
          some (if w.over = "" then { w with over := ctx.predecessor }
                else { w with under := ctx.predecessor }) ∧
        getWagersForAccount st2 ctx.predecessor =
          getWagersForAccount st ctx.predecessor ++ [wid] ∧
        wid ∉ getOpenWagersForSymbol st2 w.symbol ∧
        wid ∈ getAcceptedWagersForSymbol st2 w.symbol) := by
  refine ⟨?_, ?_, ?_, ?_, ?_⟩
  · intro h
    simp [acceptWager, h]
  · intro w hw hbal
    simp [acceptWager, hw, hbal]
  · intro w hw hbal hcond
    simp [acceptWager, hw, hbal, hcond]
  · intro w hw hbal hcond hlt
    rw [getBalance] at hlt
    simp [acceptWager, hw, hbal, hcond, hlt]
  · intro w ow hw hid hbal hcond hble how hnodup
    subst hid
    have hble2 : ¬ (alGet st.balances ctx.predecessor).getD 0 < w.bet :=
      Nat.not_lt.mpr (by rw [getBalance] at hble; exact hble)
    refine ⟨{ st with
        balances := alSet st.balances ctx.predecessor (sub128 ((alGet st.balances ctx.predecessor).getD 0) w.bet),
        wagers := alSet st.wagers w.id (if w.over = "" then { w with over := ctx.predecessor } else { w with under := ctx.predecessor }),
        userWagers := alSet st.userWagers ctx.predecessor (((alGet st.userWagers ctx.predecessor).getD []) ++ [w.id]),
        openWagers := alSet st.openWagers w.symbol (ow.erase w.id),
        acceptedWagers := alSet st.acceptedWagers w.symbol (heapPush ((alGet st.acceptedWagers w.symbol).getD []) { wagerId := w.id, at_ := w.at_ }) },
      ?_, ?_, ?_, ?_, ?_, ?_⟩
    · unfold acceptWager
      simp only [hw]
      rw [if_neg (not_not_intro hbal), if_neg (not_not_intro hcond),
        if_neg hble2, how]
      by_cases hov : w.over = "" <;> simp [hov]
    · simp only [getBalance, alGet_alSet_self, Option.getD_some]
      rw [sub128, if_pos]
      rw [getBalance] at hble
      exact hble
    · by_cases hov : w.over = "" <;>
        simp [hov, alGet_alSet_self]
    · simp only [getWagersForAccount, alGet_alSet_self, Option.getD_some]
    · simp only [getOpenWagersForSymbol, alGet_alSet_self]
      exact hnodup.not_mem_erase
    · simp only [getAcceptedWagersForSymbol, alGet_alSet_self]
      exact List.mem_map_of_mem _ (heapPush_mem _ _)

/-- Open wager of aa on sy: strike 100, expiry 50, bet 10, under side empty. -/
def w6 : Wager :=
  { id := 1, symbol := "sy", value := 100, at_ := 50, allowCancelAt := 0,
    bet := 10, over := "aa", under := "" }

/-- State holding w6 open, with acceptor bb funded with 30. -/
def stW6 : ContractState :=
  { initState with
    balances := [("bb", 30)],
    wagers := [(1, w6)],
    openWagers := [("sy", [1])] }

/-- Witness for C6 at a concrete input: bb (balance 30) accepts the open
wager 1 of aa at time 0, paying the bet of 10 and taking the empty under
side. -/
theorem acceptWager_checks_and_effects_witness :
    ∃ st2, acceptWager ⟨"bb", 0⟩ 1 stW6 = .ok st2 ∧
      getBalance st2 "bb" = getBalance stW6 "bb" - w6.bet ∧
      alGet st2.wagers 1 =
        some (if w6.over = "" then { w6 with over := "bb" }
              else { w6 with under := "bb" }) ∧
      getWagersForAccount st2 "bb" = getWagersForAccount stW6 "bb" ++ [1] ∧
      1 ∉ getOpenWagersForSymbol st2 w6.symbol ∧
      1 ∈ getAcceptedWagersForSymbol st2 w6.symbol :=
  (acceptWager_checks_and_effects ⟨"bb", 0⟩ 1 stW6).2.2.2.2 w6 [1]
    (by decide) rfl (by decide) (by decide) (by decide) (by decide) (by decide)

/-- Cancellation guard of cancelWager as the code checks it: the caller is
the sole occupant of a still-Open wager, or the unilateral allowCancelAt
bypass is configured and has elapsed. -/
def cancelCond (ctx : Ctx) (w : Wager) : Prop :=
  (w.over = ctx.predecessor ∧ w.under = "") ∨
  (w.under = ctx.predecessor ∧ w.over = "") ∨
  (w.allowCancelAt ≠ 0 ∧ w.allowCancelAt < ctx.blockTimestamp)

/-- C5 (amended): cancelWager succeeds only when the caller is the sole
occupying party of a still-Open wager or the allowCancelAt bypass is
nonzero and strictly elapsed, failing CannotCancel otherwise; on success it
credits the wager's bet to the caller, removes the id from the symbol's
open-set, splices the caller's wager list (removing the id when present,
otherwise the list's last entry) and deletes the record. -/
theorem cancelWager_amended (ctx : Ctx) (wid : Nat) (st : ContractState) :
    (∀ w, alGet st.wagers wid = some w →
      alContains st.userWagers ctx.predecessor = true →
      ¬ cancelCond ctx w →
      cancelWager ctx wid st = .error .CannotCancel) ∧
    (∀ w l ow b, alGet st.wagers wid = some w → w.id = wid →
      alGet st.userWagers ctx.predecessor = some l →
      cancelCond ctx w →
      alGet st.openWagers w.symbol = some ow → ow.Nodup →
      alGet st.balances ctx.predecessor = some b →
      b + w.bet < U128MOD →
      ∃ st2, cancelWager ctx wid st = .ok st2 ∧
        getBalance st2 ctx.predecessor = b + w.bet ∧
        wid ∉ getOpenWagersForSymbol st2 w.symbol ∧
        getWagersForAccount st2 ctx.predecessor = spliceRemove l wid ∧
        alContains st2.wagers wid = false) := by
  constructor
  · intro w hw huw hnc
    have hcw : alContains st.wagers wid = true := by
      rw [alContains, hw]
      rfl
    unfold cancelWager
    rw [if_neg (not_not_intro hcw), if_neg (not_not_intro huw)]
    simp only [hw]
    rw [if_pos]
    exact fun hc => hnc hc
  · intro w l ow b hw hid hl hc how hnodup hb hlt
    subst hid
    simp only [cancelCond] at hc
    have hcw : alContains st.wagers w.id = true := by
      rw [alContains, hw]
      rfl
    have huw : alContains st.userWagers ctx.predecessor = true := by
      rw [alContains, hl]
      rfl
    refine ⟨{ deleteWagerApply ctx w l st with
        openWagers := alSet st.openWagers w.symbol (ow.erase w.id),
        balances := alSet st.balances ctx.predecessor (add128 b w.bet) },
      ?_, ?_, ?_, ?_, ?_⟩
    · unfold cancelWager
      rw [if_neg (not_not_intro hcw), if_neg (not_not_intro huw)]
      simp only [hw]
      rw [if_neg (not_not_intro hc), hl, how, hb]
    · simp only [getBalance, alGet_alSet_self, Option.getD_some]
      exact add128_small b w.bet hlt
    · simp only [getOpenWagersForSymbol, alGet_alSet_self]
      exact hnodup.not_mem_erase
    · simp only [getWagersForAccount, deleteWagerApply, alGet_alSet_self,
        Option.getD_some]
    · simp only [alContains, deleteWagerApply, alGet_alDelete_self,
        Option.isSome_none]

/-- Open wager of aa on sy used for the C5 witness. -/
def stW5 : ContractState :=
  { initState with
    balances := [("aa", 5)],
    wagers := [(1, w6)],
    userWagers := [("aa", [1])],
    openWagers := [("sy", [1])] }

/-- Witness for the amended C5 at a concrete input: aa, sole occupant of
its own open wager 1, cancels it at time 0 and is refunded the bet of 10 on
top of its balance of 5. -/
theorem cancelWager_amended_witness :
    ∃ st2, cancelWager ⟨"aa", 0⟩ 1 stW5 = .ok st2 ∧
      getBalance st2 "aa" = 5 + w6.bet ∧
      1 ∉ getOpenWagersForSymbol st2 w6.symbol ∧
      getWagersForAccount st2 "aa" = spliceRemove [1] 1 ∧
      alContains st2.wagers 1 = false :=
  (cancelWager_amended ⟨"aa", 0⟩ 1 stW5).2 w6 [1] [1] 5
    (by decide) rfl (by decide) (Or.inl (by decide)) (by decide) (by decide)
    (by decide) (by decide)

theorem setAdd_mem (l : List Nat) (x : Nat) : x ∈ setAdd l x := by
  unfold setAdd
  split
  · assumption
  · simp

/-- Case analysis of createWager: validation failures in assert order, and
the success effects. -/
theorem createWager_cases (ctx : Ctx) (symbol : String) (isOver : Bool)
    (value bet at_ allowCancelAt : Nat) (st : ContractState) :
    (bet = 0 →
      createWager ctx symbol isOver value bet at_ allowCancelAt st =
        .error .InvalidAmount) ∧
    (0 < bet → value = 0 →
      createWager ctx symbol isOver value bet at_ allowCancelAt st =
        .error .InvalidAmount) ∧
    (0 < bet → 0 < value → at_ ≤ ctx.blockTimestamp →
      createWager ctx symbol isOver value bet at_ allowCancelAt st =
        .error .InvalidTime) ∧
    (0 < bet → 0 < value → ctx.blockTimestamp < at_ →
      MAX_SYMBOL_LENGTH < symbol.length →
      createWager ctx symbol isOver value bet at_ allowCancelAt st =
        .error .InvalidSymbol) ∧
    (0 < bet → 0 < value → ctx.blockTimestamp < at_ →
      symbol.length ≤ MAX_SYMBOL_LENGTH →
      alGet st.balances ctx.predecessor = none →
      createWager ctx symbol isOver value bet at_ allowCancelAt st =
        .error .InvalidAccount) ∧
    (∀ b, 0 < bet → 0 < value → ctx.blockTimestamp < at_ →
      symbol.length ≤ MAX_SYMBOL_LENGTH →
      alGet st.balances ctx.predecessor = some b → b < bet →
      createWager ctx symbol isOver value bet at_ allowCancelAt st =
        .error .InsufficientBalance) ∧
    (∀ b, 0 < bet → 0 < value → ctx.blockTimestamp < at_ →
      symbol.length ≤ MAX_SYMBOL_LENGTH →
      alGet st.balances ctx.predecessor = some b → bet ≤ b →
      ∃ st2,
        createWager ctx symbol isOver value bet at_ allowCancelAt st =
          .ok (st.nextWagerId, st2) ∧
        st2.nextWagerId = (st.nextWagerId + 1) % U64MOD ∧
        getBalance st2 ctx.predecessor = b - bet ∧
        alGet st2.wagers st.nextWagerId =
          some { id := st.nextWagerId, symbol := symbol, value := value,
                 at_ := at_, allowCancelAt := allowCancelAt, bet := bet,
                 over := if isOver then ctx.predecessor else "",
                 under := if isOver then "" else ctx.predecessor } ∧
        getWagersForAccount st2 ctx.predecessor =
          getWagersForAccount st ctx.predecessor ++ [st.nextWagerId] ∧
        st.nextWagerId ∈ getOpenWagersForSymbol st2 symbol) := by
  refine ⟨?_, ?_, ?_, ?_, ?_, ?_, ?_⟩
  · intro h
    simp [createWager, h]
  · intro hbet h
    simp [createWager, hbet, h]
  · intro hbet hval h
    simp [createWager, hbet, hval, Nat.not_lt.mpr h]
  · intro hbet hval ht h
    simp [createWager, hbet, hval, ht, Nat.not_le.mpr h]
  · intro hbet hval ht hsym h
    simp [createWager, hbet, hval, ht, hsym, h]
  · intro b hbet hval ht hsym hb h
    simp [createWager, hbet, hval, ht, hsym, hb, h]
  · intro b hbet hval ht hsym hb hle
    refine ⟨{ st with
        nextWagerId := (st.nextWagerId + 1) % U64MOD,
        balances := alSet st.balances ctx.predecessor (sub128 b bet),
        wagers := alSet st.wagers st.nextWagerId { id := st.nextWagerId, symbol := symbol, value := value, at_ := at_, allowCancelAt := allowCancelAt, bet := bet, over := if isOver then ctx.predecessor else "", under := if isOver then "" else ctx.predecessor },
        userWagers := alSet st.userWagers ctx.predecessor (((alGet st.userWagers ctx.predecessor).getD []) ++ [st.nextWagerId]),
        openWagers := alSet st.openWagers symbol (setAdd ((alGet st.openWagers symbol).getD []) st.nextWagerId) },
      ?_, rfl, ?_, ?_, ?_, ?_⟩
    · unfold createWager
      rw [if_neg (not_not_intro hbet), if_neg (not_not_intro hval),
        if_neg (not_not_intro ht), if_neg (not_not_intro hsym)]
      simp only [hb]
      rw [if_neg (Nat.not_lt.mpr hle)]
    · simp only [getBalance, alGet_alSet_self, Option.getD_some]
      rw [sub128, if_pos hle]
    · simp only [alGet_alSet_self]
    · simp only [getWagersForAccount, alGet_alSet_self, Option.getD_some]
    · simp only [getOpenWagersForSymbol, alGet_alSet_self]
      exact setAdd_mem _ _

theorem createWager_counter (ctx : Ctx) (symbol : String) (isOver : Bool)
    (value bet at_ allowCancelAt : Nat) (st : ContractState)
    (r : Nat × ContractState)
    (h : createWager ctx symbol isOver value bet at_ allowCancelAt st = .ok r) :
    r.1 = st.nextWagerId ∧
      r.2.nextWagerId = (st.nextWagerId + 1) % U64MOD := by
  unfold createWager at h
  repeat' split at h
  all_goals try exact Except.noConfusion h
  all_goals cases Except.ok.inj h
  all_goals exact ⟨rfl, rfl⟩

theorem step_counter_mint (st : ContractState) (p : String) (t : Nat) :
    (step st (.mintOp p t)).nextWagerId = st.nextWagerId := by
  simp only [step]
  split
  · rename_i st2 h2
    exact mint_frame _ _ _ h2
  · rfl

theorem step_counter_transfer (st : ContractState) (p : String) (t : Nat)
    (to_ : String) (amount : Nat) :
    (step st (.transferOp p t to_ amount)).nextWagerId = st.nextWagerId := by
  simp only [step]
  split
  · rename_i st2 h2
    exact (transfer_frame _ _ _ _ _ h2).2.2
  · rfl

theorem step_counter_accept (st : ContractState) (p : String) (t wid : Nat) :
    (step st (.acceptOp p t wid)).nextWagerId = st.nextWagerId := by
  simp only [step]
  split
  · rename_i st2 h2
    exact (acceptWager_frame _ _ _ _ h2).2.2
  · rfl

theorem step_counter_cancel (st : ContractState) (p : String) (t wid : Nat) :
    (step st (.cancelOp p t wid)).nextWagerId = st.nextWagerId := by
  simp only [step]
  split
  · rename_i st2 h2
    exact (cancelWager_frame _ _ _ _ h2).2.2
  · rfl

theorem step_counter_report (st : ContractState) (p : String) (t : Nat)
    (symbol : String) (value : Nat) :
    (step st (.reportOp p t symbol value)).nextWagerId = st.nextWagerId := by
  simp only [step]
  split
  · rename_i st2 h2
    exact (reportSymbol_frame _ _ _ _ _ h2).2.2
  · rfl

/-- Ids returned by successful creates along a trace are exactly the
consecutive counter values, as long as the u64 counter cannot wrap. -/
theorem createdIds_range (ops : List Op) : ∀ st : ContractState,
    st.nextWagerId + (createdIds st ops).length ≤ U64MOD →
    createdIds st ops =
      List.range' st.nextWagerId (createdIds st ops).length := by
  induction ops with
  | nil =>
    intro st _
    rfl
  | cons op rest ih =>
    intro st hbound
    cases op with
    | mintOp p t =>
      exact (ih _ (by rw [step_counter_mint]; exact hbound)).trans
        (by rw [step_counter_mint]; exact rfl)
    | transferOp p t to_ amount =>
      exact (ih _ (by rw [step_counter_transfer]; exact hbound)).trans
        (by rw [step_counter_transfer]; exact rfl)
    | acceptOp p t wid =>
      exact (ih _ (by rw [step_counter_accept]; exact hbound)).trans
        (by rw [step_counter_accept]; exact rfl)
    | cancelOp p t wid =>
      exact (ih _ (by rw [step_counter_cancel]; exact hbound)).trans
        (by rw [step_counter_cancel]; exact rfl)
    | reportOp p t symbol value =>
      exact (ih _ (by rw [step_counter_report]; exact hbound)).trans
        (by rw [step_counter_report]; exact rfl)
    | createOp p t symbol isOver value bet at_ allowCancelAt =>
      cases hcr : createWager ⟨p, t⟩ symbol isOver value bet at_ allowCancelAt st with
      | error e =>
        have heq : createdIds st (Op.createOp p t symbol isOver value bet at_ allowCancelAt :: rest) = createdIds st rest := by
          simp only [createdIds, hcr]
        rw [heq] at hbound ⊢
        exact ih st hbound
      | ok r =>
        have hc := createWager_counter _ _ _ _ _ _ _ _ _ hcr
        have heq : createdIds st (Op.createOp p t symbol isOver value bet at_ allowCancelAt :: rest) = r.1 :: createdIds r.2 rest := by
          simp only [createdIds, hcr]
        rw [heq] at hbound ⊢
        rw [List.length_cons] at hbound ⊢
        rcases Nat.eq_zero_or_pos (createdIds r.2 rest).length with hL | hL
        · rw [List.length_eq_zero.mp hL, hc.1]
          rfl
        · have hlt : st.nextWagerId + 1 < U64MOD := by omega
          have h2 : (st.nextWagerId + 1) % U64MOD = st.nextWagerId + 1 :=
            Nat.mod_eq_of_lt hlt
        
          have hb2 : r.2.nextWagerId + (createdIds r.2 rest).length ≤ U64MOD := by
            rw [hc.2, h2]
            omega
          have hrec := ih r.2 hb2
          rw [hc.1, hrec, hc.2, h2]
          rw [List.length_range']
          rw [List.range'_succ]

/-- C7: createWager fails unless the bet and strike are positive, the
expiry is strictly in the future, the symbol length is within the bound and
the caller has a balance record covering the bet; on success it debits the
caller by the bet, stores the wager Open with the caller on the requested
side and the other side empty, indexes the id in the symbol's open-set and
the caller's wager list, and returns the current value of the monotonic
counter (which starts at 1); consequently, along any trace from the initial
state whose number of successful creates cannot wrap the u64 counter, the
returned ids are 1, 2, 3, ... in order and no two calls return the same
id. -/
theorem createWager_checks_and_fresh_ids :
    (∀ (ctx : Ctx) (symbol : String) (isOver : Bool)
      (value bet at_ allowCancelAt : Nat) (st : ContractState),
      (bet = 0 →
        createWager ctx symbol isOver value bet at_ allowCancelAt st =
          .error .InvalidAmount) ∧
      (0 < bet → value = 0 →
        createWager ctx symbol isOver value bet at_ allowCancelAt st =
          .error .InvalidAmount) ∧
      (0 < bet → 0 < value → at_ ≤ ctx.blockTimestamp →
        createWager ctx symbol isOver value bet at_ allowCancelAt st =
          .error .InvalidTime) ∧
      (0 < bet → 0 < value → ctx.blockTimestamp < at_ →
        MAX_SYMBOL_LENGTH < symbol.length →
        createWager ctx symbol isOver value bet at_ allowCancelAt st =
          .error .InvalidSymbol) ∧
      (0 < bet → 0 < value → ctx.blockTimestamp < at_ →
        symbol.length ≤ MAX_SYMBOL_LENGTH →
        alGet st.balances ctx.predecessor = none →
        createWager ctx symbol isOver value bet at_ allowCancelAt st =
          .error .InvalidAccount) ∧
      (∀ b, 0 < bet → 0 < value → ctx.blockTimestamp < at_ →
        symbol.length ≤ MAX_SYMBOL_LENGTH →
        alGet st.balances ctx.predecessor = some b → b < bet →
        createWager ctx symbol isOver value bet at_ allowCancelAt st =
          .error .InsufficientBalance) ∧
      (∀ b, 0 < bet → 0 < value → ctx.blockTimestamp < at_ →
        symbol.length ≤ MAX_SYMBOL_LENGTH →
        alGet st.balances ctx.predecessor = some b → bet ≤ b →
        ∃ st2,
          createWager ctx symbol isOver value bet at_ allowCancelAt st =
            .ok (st.nextWagerId, st2) ∧
          st2.nextWagerId = (st.nextWagerId + 1) % U64MOD ∧
          getBalance st2 ctx.predecessor = b - bet ∧
          alGet st2.wagers st.nextWagerId =
            some { id := st.nextWagerId, symbol := symbol, value := value,
                   at_ := at_, allowCancelAt := allowCancelAt, bet := bet,
                   over := if isOver then ctx.predecessor else "",
                   under := if isOver then "" else ctx.predecessor } ∧
          getWagersForAccount st2 ctx.predecessor =
            getWagersForAccount st ctx.predecessor ++ [st.nextWagerId] ∧
          st.nextWagerId ∈ getOpenWagersForSymbol st2 symbol)) ∧
    (∀ ops : List Op, 1 + (createdIds initState ops).length ≤ U64MOD →
      createdIds initState ops =
        List.range' 1 (createdIds initState ops).length ∧
      (createdIds initState ops).Nodup) := by
  constructor
  · intro ctx symbol isOver value bet at_ allowCancelAt st
    exact createWager_cases ctx symbol isOver value bet at_ allowCancelAt st
  · intro ops h
    have hr := createdIds_range ops initState h
    refine ⟨hr, ?_⟩
    rw [hr]
    exact List.nodup_range' _ _

/-- Balance record for aa used in the C7 witness. -/
def stW7 : ContractState := { initState with balances := [("aa", 30)] }

/-- Witness for C7 at concrete inputs: aa (balance 30) creates an over
wager on sy with strike 100, bet 10 and expiry 50 at time 0, receiving id
1; and the created ids of the opsC4 trace are [1, 2, 3, 4], without
repetition. -/
theorem createWager_checks_and_fresh_ids_witness :
    (∃ st2, createWager ⟨"aa", 0⟩ "sy" true 100 10 50 0 stW7 =
        .ok (1, st2) ∧
      st2.nextWagerId = (1 + 1) % U64MOD ∧
      getBalance st2 "aa" = 20 ∧
      alGet st2.wagers 1 =
        some { id := 1, symbol := "sy", value := 100, at_ := 50,
               allowCancelAt := 0, bet := 10, over := "aa", under := "" } ∧
      getWagersForAccount st2 "aa" = [1] ∧
      1 ∈ getOpenWagersForSymbol st2 "sy") ∧
    (createdIds initState opsC4 =
      List.range' 1 (createdIds initState opsC4).length ∧
      (createdIds initState opsC4).Nodup) :=
  ⟨(createWager_checks_and_fresh_ids.1 ⟨"aa", 0⟩ "sy" true 100 10 50 0
      stW7).2.2.2.2.2.2 30 (by decide) (by decide) (by decide) (by decide)
      (by decide) (by decide),
   createWager_checks_and_fresh_ids.2 opsC4 (by decide)⟩

/-- C5 counterexample: after opsC5, wager 1 is Matched (over aa, under bb),
so by the claim cancelWager must fail with CannotCancel for every caller;
yet bb's cancelWager(1) at time 10 succeeds, because the unilateral
allowCancelAt bypass (allowCancelAt = 5, nonzero and elapsed) does not check
that the wager is still Open. -/
theorem cancel_succeeds_on_matched_wager :
    alGet (run initState opsC5).wagers 1 =
      some { id := 1, symbol := "sy", value := 100, at_ := 100,
             allowCancelAt := 5, bet := 10, over := "aa", under := "bb" } ∧
    resultOk (cancelWager ⟨"bb", 10⟩ 1 (run initState opsC5)) = true := by
  decide

end NearWagers
